import Mathlib

/-!
Verification of the rolling-file log writer (package `logwriter`).

The development embeds, as pure Lean functions, the rotation/retention
engine of the repository:

* the startup scanner `collectFiles` (variant with a `maxid` second
  return, used by the asynchronous pipeline `New`), and the older
  single-return variant used by `NewWriter`;
* the retention ring `push` (pipeline variant) and `ringPush`
  (synchronous variant) together with the derived list of live records;
* the worker-side write path of the pipeline variant: `open`, `flushwm`,
  `rotate`, `write`, the sentinel branch of `ioproc`, `Write`, `Sync`,
  `WriteMerging` and `New`;
* the rotated-file naming of both variants (`fmt.Sprintf`-compatible
  zero padding), including the month adjustment of the synchronous
  variant's `rotate`;
* the argument validation of `NewWriter`.

File-system effects are made explicit: the active file is a list of
bytes written since it was opened, rotated files are (name, contents)
pairs, and fallible I/O calls take their outcome (`Option`-valued
errors, `Option Nat` open results) as arguments so that every code path
of the source, including the error paths, is represented.  A `none`
result of a state-transforming function models a Go runtime panic
(slice index / modulo by zero, out-of-range slicing).
-/

namespace LogWriter

/-- Record of one rotated file, mirroring `type fileinfo struct { id int; path string }`. -/
structure Fileinfo where
  id : Int
  path : String
deriving Repr, DecidableEq

instance : Inhabited Fileinfo := ⟨⟨0, ""⟩⟩

/-- One entry of a directory listing as seen by the scanner: its base name,
whether it is a directory, and whether `os.Lstat` succeeds on it. -/
structure DirEntry where
  name : String
  isDir : Bool
  statOk : Bool
deriving Repr, DecidableEq

/-- Digits-only decimal parse; `none` on an empty list or any non-digit. -/
def digitsToNat (cs : List Char) : Option Nat :=
  if cs = [] then none
  else cs.foldl (fun acc c =>
    acc.bind fun n => if c.isDigit then some (n * 10 + (c.toNat - 48)) else none) (some 0)

/-- Model of `strconv.Atoi`: optional sign followed by at least one digit.
Overflow (`ErrRange`) is not modelled; the ids in scope are far below it. -/
def atoi (s : String) : Option Int :=
  match s.data with
  | [] => none
  | '+' :: rest => (digitsToNat rest).map Int.ofNat
  | '-' :: rest => (digitsToNat rest).map fun n => -(n : Int)
  | l => (digitsToNat l).map Int.ofNat

/-- The substring after the last '.' of `s` (the whole of `s` when it has no
dot), as computed by `strings.LastIndexByte(name, '.')` plus `name[p+1:]`. -/
def suffixAfterLastDot (s : String) : String :=
  String.mk ((s.data.reverse.takeWhile (· ≠ '.')).reverse)

/-- Model of `filepath.Join dir name` for already-clean arguments (the
cleaning performed by `filepath.Join` is irrelevant to every claim here). -/
def joinPath (dir name : String) : String :=
  dir ++ "/" ++ name

/-- Decimal rendering of `n` left-padded with zeros to `width` characters. -/
def padNat (width n : Nat) : String :=
  let s := Nat.repr n
  String.mk (List.replicate (width - s.length) '0') ++ s

/-- Model of Go `fmt.Sprintf("%0*d", width, n)` for `Int`: the minus sign
counts toward the width, as in Go. -/
def pad0 (width : Nat) (n : Int) : String :=
  if n < 0 then "-" ++ padNat (width - 1) n.natAbs else padNat width n.toNat

/-- The rotated-file name `path + fmt.Sprintf(".%04d-%02d-%02d.%d", y, m, d, id)`
shared by both variants of `rotate`. -/
def goName (path : String) (y m d id : Int) : String :=
  path ++ "." ++ pad0 4 y ++ "-" ++ pad0 2 m ++ "-" ++ pad0 2 d ++ "." ++ Int.repr id

/-- Name computed by the synchronous variant's `rotate` (writer.go): the
current date's year/month with the month decremented when the current
day-of-month is 1 (wrapping January to December of the previous year), and
the stored watermark day `wday`.  `id` is the already-incremented sequence id. -/
def wgRotateName (path : String) (y m d wday id : Int) : String :=
  let m2 := if d = 1 then m - 1 else m
  let y3 := if d = 1 ∧ m2 = 0 then y - 1 else y
  let m3 := if d = 1 ∧ m2 = 0 then (12 : Int) else m2
  goName path y3 m3 wday id

/-- Filter applied by `collectFiles` to one directory entry: keep the name
when it starts with the configured base name (`strings.HasPrefix`, modelled
on the character lists), its suffix after the last '.' parses as an
integer, `os.Lstat` succeeds and it is not a directory; the result is the
parsed sequence id. -/
def matchEntry (base : String) (e : DirEntry) : Option Int :=
  if base.data.isPrefixOf e.name.data then
    match atoi (suffixAfterLastDot e.name) with
    | none => none
    | some id => if e.statOk ∧ ¬e.isDir then some id else none
  else none

/-- All records the scanner's loop would append (one per accepted entry),
in directory order. -/
def matchList (dir base : String) (entries : List DirEntry) : List Fileinfo :=
  entries.filterMap fun e => (matchEntry base e).map fun id => ⟨id, joinPath dir e.name⟩

/-- The sequence ids of all accepted entries, in directory order. -/
def matchIds (base : String) (entries : List DirEntry) : List Int :=
  entries.filterMap fun e => matchEntry base e

/-- Insertion into a list sorted by ascending id. -/
def insertByID (x : Fileinfo) : List Fileinfo → List Fileinfo
  | [] => [x]
  | y :: ys => if x.id ≤ y.id then x :: y :: ys else y :: insertByID x ys

/-- Sorting by ascending id, modelling `sort.Slice(filist, ...id < id...)`. -/
def sortByID : List Fileinfo → List Fileinfo
  | [] => []
  | x :: xs => insertByID x (sortByID xs)

/-- Model of the scanner variant used by the pipeline constructor `New`:
`collectFiles(dir, prefix, maxfiles) (filist []fileinfo, maxid int)`.
`entries` stands for the successful directory listing.  Records are
accumulated only when `maxfiles > 0`; `maxid` starts at `0` and is raised by
every accepted entry's id; the accumulated records are sorted ascending by
id and the slice `filist[head:]` with `head = max(len - maxfiles, 0)` is
returned.  A `none` result models the Go panic of `filist[head:]` when
`maxfiles < 0` makes `head` exceed `len(filist)`. -/
def collectFiles (entries : List DirEntry) (dir base : String) (mf : Int) :
    Option (List Fileinfo × Int) :=
  let filist := if 0 < mf then matchList dir base entries else []
  let maxid := (matchIds base entries).foldl max 0
  let sorted := sortByID filist
  let headI : Int := (sorted.length : Int) - mf
  let headN : Int := if headI < 0 then 0 else headI
  if headN ≤ (sorted.length : Int) then some (sorted.drop headN.toNat, maxid)
  else none

/-- Model of the older single-return scanner used by `NewWriter`: returns
`nil` when `maxfile == 0`, and `make([]fileinfo, 0, maxfile)` panics when
`maxfile < 0` (modelled as `none`).  Unlike the two-return variant it
appends every accepted entry unconditionally. -/
def collectFilesV0 (entries : List DirEntry) (dir base : String) (mf : Int) :
    Option (List Fileinfo) :=
  if mf = 0 then some []
  else if mf < 0 then none
  else
    let sorted := sortByID (matchList dir base entries)
    some (sorted.drop (sorted.length - mf.toNat))

/-- The retention-ring fields of the writer: the backing array `ring`
(`filist[:cap(filist)]`), the monotone `head`/`tail` cursors and the
configured capacity `maxfiles`.  `head` and `tail` start at `0`/`len(filist)`
and are only ever incremented, so they are `Nat`. -/
structure Ring where
  ring : List Fileinfo
  head : Nat
  tail : Nat
  maxfiles : Nat
deriving Repr, DecidableEq

/-- Model of the pipeline variant's `(w *Writer) push(id, name)`.  The
returned string is Go's `pop` (empty string when nothing was evicted).
`none` models the Go panic `integer divide by zero` of `head % len(ring)`
or `tail % len(ring)` when the backing array is empty. -/
def push (r : Ring) (id : Int) (name : String) : Option (String × Ring) :=
  if r.ring.length = 0 then none
  else
    let pop :=
      if r.maxfiles + r.head = r.tail then
        ((r.ring[r.head % r.ring.length]?).getD default).path
      else ""
    let head1 := if r.maxfiles + r.head = r.tail then r.head + 1 else r.head
    some (pop, { r with ring := r.ring.set (r.tail % r.ring.length) ⟨id, name⟩,
                        head := head1, tail := r.tail + 1 })

/-- Model of the synchronous variant's `(w *Writer) ringPush(id, name)`:
identical to `push` except that the eviction branch additionally requires
`maxfiles != 0`. -/
def ringPush (r : Ring) (id : Int) (name : String) : Option (String × Ring) :=
  if r.ring.length = 0 then none
  else
    let evict := r.maxfiles + r.head = r.tail ∧ r.maxfiles ≠ 0
    let pop :=
      if evict then ((r.ring[r.head % r.ring.length]?).getD default).path
      else ""
    let head1 := if evict then r.head + 1 else r.head
    some (pop, { r with ring := r.ring.set (r.tail % r.ring.length) ⟨id, name⟩,
                        head := head1, tail := r.tail + 1 })

/-- The live records of the ring, oldest first: the slots
`head % len(ring), ..., (tail-1) % len(ring)` of the backing array. -/
def live (r : Ring) : List Fileinfo :=
  (List.range (r.tail - r.head)).map fun i =>
    (r.ring[(r.head + i) % r.ring.length]?).getD default

/-- Number of live records. -/
def liveCount (r : Ring) : Nat :=
  r.tail - r.head

/-- Ring invariant maintained by the engine when retention is enabled:
cursors are ordered, at most `maxfiles` records are live, the backing array
has at least `maxfiles` slots (it is created with capacity `maxfiles`, and
Go's `append` never shrinks capacity), and the live records carry strictly
increasing sequence ids. -/
def RingInv (r : Ring) : Prop :=
  r.head ≤ r.tail ∧ r.tail - r.head ≤ r.maxfiles ∧ r.maxfiles ≤ r.ring.length ∧
    List.Chain' (fun a b => a.id < b.id) (live r)

/-- Worker-owned state of the pipeline variant's `Writer` plus the explicit
file-system facts the claims are about.  `fOpen` is `w.f != nil`;
`activeBytes` collects the bytes physically written to the active file since
it was last opened; `rotated` is the set of rotated files on disk as
(name, contents written while it was active); `errLog` collects the messages
the worker prints to `os.Stderr`; `wq` is the queue contents, `none` being
the sync sentinel. -/
structure WState where
  fOpen : Bool
  activeBytes : List Nat
  nwrote : Int
  limit : Int
  writeMerge : Bool
  dailyRotate : Bool
  year : Int
  month : Int
  day : Int
  nwm : Nat
  wmbuf : List Nat
  id : Int
  rs : Ring
  rotated : List (String × List Nat)
  errLog : List String
  wq : List (Option (List Nat))
  path : String
deriving Repr, DecidableEq

/-- Outcome of one `rotate` call's fallible I/O: the result of the staged
flush's `f.Write` (`none` = success) and of the reopen (`some size` =
success with `Stat` size `size`, `none` = both `OpenFile` attempts failed). -/
structure RotOut where
  flushErr : Option String
  openRes : Option Nat
deriving Repr, DecidableEq

/-- Model of `(w *Writer) open(year, month, day)`: on success the handle is
(re)opened for append, the day watermark is set and `nwrote` is initialised
from the file's current size; on failure the state is unchanged and the
error is returned. -/
def openFile (res : Option Nat) (y m d : Int) (w : WState) : Option String × WState :=
  match res with
  | none => (some "open error", w)
  | some sz =>
      (none, { w with fOpen := true, activeBytes := [],
                      year := y, month := m, day := d, nwrote := (sz : Int) })

/-- Model of `(w *Writer) flushwm()`: writes `wmbuf[:nwm]` to the active
file and zeroes `nwm` whether or not the write failed (the source assigns
`w.nwm = 0` unconditionally before returning the error). -/
def flushwm (ferr : Option String) (w : WState) : Option String × WState :=
  match ferr with
  | none => (none, { w with activeBytes := w.activeBytes ++ w.wmbuf.take w.nwm, nwm := 0 })
  | some e => (some e, { w with nwm := 0 })

/-- Model of Go's `copy(dst[off:], src)` effect on `dst`: the
`min (src.length) (dst.length - off)` bytes of `src` overwrite `dst`
starting at `off`; the length of `dst` is unchanged. -/
def copyAt (dst : List Nat) (off : Nat) (src : List Nat) : List Nat :=
  dst.take off ++ src.take (dst.length - off) ++ dst.drop (off + src.length)

/-- Model of the pipeline variant's `(w *Writer) rotate(year, month, day)`:
flush the staging buffer if non-empty, increment the sequence id, rename the
active file to `path.YYYY-MM-DD.id` built from the STORED watermark
(`w.year, w.month, w.day`), register it in the ring when retention is
enabled (deleting the evicted path, `os.Remove`'s error being ignored),
close the handle and reopen a fresh active file for the current date.
`none` models the panic of `push` on an empty backing array. -/
def rotate (o : RotOut) (y m d : Int) (w : WState) : Option (Option String × WState) :=
  let s := if 0 < w.nwm then flushwm o.flushErr w else (none, w)
  match s with
  | (some e, w1) => some (some e, w1)
  | (none, w1) =>
    let newid := w1.id + 1
    let newpath := goName w1.path w1.year w1.month w1.day newid
    let w2 := { w1 with id := newid,
                        rotated := w1.rotated ++ [(newpath, w1.activeBytes)],
                        activeBytes := [], fOpen := false }
    let step : Option WState :=
      if 0 < w2.rs.maxfiles then
        match push w2.rs newid newpath with
        | none => none
        | some (removed, rs1) =>
            some { w2 with rs := rs1,
                           rotated := if removed = "" then w2.rotated
                                      else w2.rotated.filter fun q => q.1 ≠ removed }
      else some w2
    match step with
    | none => none
    | some w3 => some (openFile o.openRes y m d w3)

/-- The final `w.f.Write(p)` of the write path. -/
def directWrite (werr : Option String) (p : List Nat) (w : WState) :
    Option (Option String × WState) :=
  match werr with
  | none => some (none, { w with activeBytes := w.activeBytes ++ p })
  | some e => some (some e, w)

/-- The tail of `(w *Writer) write(p)` after the rotation checks: the
write-merging staging logic followed by the direct `f.Write(p)`. -/
def writeTail (oFlush oWrite : Option String) (p : List Nat) (w : WState) :
    Option (Option String × WState) :=
  if w.writeMerge then
    let s :=
      if w.nwm ≠ 0 ∧ w.wmbuf.length < w.nwm + p.length then flushwm oFlush w
      else (none, w)
    match s with
    | (some e, w1) => some (some e, w1)
    | (none, w1) =>
      if p.length ≤ w1.wmbuf.length then
        some (none, { w1 with
          wmbuf := copyAt w1.wmbuf w1.nwm p,
          nwm := w1.nwm + min p.length (w1.wmbuf.length - w1.nwm) })
      else directWrite oWrite p w1
  else directWrite oWrite p w

/-- Model of the worker's `(w *Writer) write(p)` for a call at date
`(y, m, d)`: open the file if closed, rotate on a day change when
`DailyRotate` is set, account `len(p)`, rotate when the size limit is
configured and exceeded (resetting the account to `len(p)` only when that
rotation succeeds), then stage or write the bytes. -/
def write (oOpen : Option Nat) (oDaily oSize : RotOut) (oFlush oWrite : Option String)
    (y m d : Int) (p : List Nat) (w : WState) : Option (Option String × WState) :=
  let s1 := if w.fOpen then (none, w) else openFile oOpen y m d w
  match s1 with
  | (some e, w1) => some (some e, w1)
  | (none, w1) =>
    let s2 : Option (Option String × WState) :=
      if w1.dailyRotate ∧ d ≠ w1.day then rotate oDaily y m d w1 else some (none, w1)
    match s2 with
    | none => none
    | some (some e, w2) => some (some e, w2)
    | some (none, w2) =>
      let w3 := { w2 with nwrote := w2.nwrote + (p.length : Int) }
      if 0 < w3.limit ∧ w3.limit < w3.nwrote then
        match rotate oSize y m d w3 with
        | none => none
        | some (some e, w4) => some (some e, w4)
        | some (none, w4) => writeTail oFlush oWrite p { w4 with nwrote := (p.length : Int) }
      else writeTail oFlush oWrite p w3

/-- The sentinel (`buf == nil`) branch of `(w *Writer) ioproc()`: when the
file is open, flush the staging buffer if non-empty, then `f.Sync()`; on
either failing, print the error to stderr and drop the handle.  `oSync` is
the outcome of `f.Sync()`. -/
def ioprocSentinel (oFlush oSync : Option String) (w : WState) : WState :=
  if w.fOpen then
    let s := if 0 < w.nwm then flushwm oFlush w else (none, w)
    let serr := match s.1 with
      | some e => some e
      | none => oSync
    match serr with
    | none => s.2
    | some e => { s.2 with errLog := s.2.errLog ++ [e], fOpen := false }
  else w

/-- Model of the caller-facing `(w *Writer) Write(p)`: a zero-length `p`
returns immediately; otherwise the bytes are copied into a fresh buffer
(`n = copy(buf, p)`) which is enqueued, and `(n, nil)` is returned. -/
def Write (w : WState) (p : List Nat) : (Nat × Option String) × WState :=
  if p.length = 0 then ((0, none), w)
  else
    let buf := copyAt (List.replicate p.length 0) 0 p
    let n := min p.length (List.replicate p.length (0 : Nat)).length
    ((n, none), { w with wq := w.wq ++ [some buf] })

/-- Model of `(w *Writer) Sync()`: enqueue the `nil` sentinel, wait for the
worker's signal, and return `nil` unconditionally. -/
def Sync (w : WState) : WState × Option String :=
  ({ w with wq := w.wq ++ [none] }, none)

/-- Model of `(w *Writer) WriteMerging()`: allocate a page-sized staging
buffer and enable merging. -/
def WriteMerging (pagesize : Nat) (w : WState) : WState :=
  { w with wmbuf := List.replicate pagesize 0, nwm := 0, writeMerge := true }

/-- The backing array `filist[:cap(filist)]` handed to the ring by `New`.
With `maxfiles ≤ 0` the scanner never allocated, so the array is empty;
otherwise the retained records are followed by the array's never-written
zero-valued slots.  (When the scan retained `maxfiles` records after seeing
more, Go's `append` may have grown the capacity beyond `maxfiles`; no
theorem below depends on those extra slots.) -/
def ringInit (filist : List Fileinfo) (mf : Int) : List Fileinfo :=
  if mf ≤ 0 then filist
  else filist ++ List.replicate (mf.toNat - filist.length) default

/-- Model of the pipeline constructor
`New(path string, limit int, maxfiles int) *Writer`: scan the directory,
then build the writer with the sequence counter at `maxid`, the ring primed
with the retained records, and no validation of any argument.  `none`
models the panic of `collectFiles` on a negative `maxfiles`. -/
def New (entries : List DirEntry) (path dir base : String) (limit mf : Int) :
    Option WState :=
  match collectFiles entries dir base mf with
  | none => none
  | some (filist, maxid) =>
      some { fOpen := false, activeBytes := [], nwrote := 0, limit := limit,
             writeMerge := false, dailyRotate := true,
             year := 0, month := 0, day := 0, nwm := 0, wmbuf := [],
             id := maxid,
             rs := { ring := ringInit filist mf, head := 0, tail := filist.length,
                     maxfiles := mf.toNat },
             rotated := [], errLog := [], wq := [], path := path }

/-- The synchronous variant's `Writer` as built by `NewWriter` (the fields
relevant to construction). -/
structure WGWriter where
  id : Int
  ring : List Fileinfo
  head : Nat
  tail : Nat
  path : String
  dir : String
  limit : Int
  maxfiles : Int
  toConsole : Bool
  toFile : Bool
deriving Repr, DecidableEq

/-- Model of `NewWriter(path string, limit int, maxfiles int) (*Writer, error)`:
rejects an empty path, a non-positive limit or a negative retention count
with `errors.New("invalid argument")` before touching anything else, then
scans and builds the writer with the counter at the last retained id. -/
def NewWriter (entries : List DirEntry) (path dir base : String) (limit mf : Int) :
    Except String WGWriter :=
  if path = "" ∨ limit ≤ 0 ∨ mf < 0 then .error "invalid argument"
  else
    match collectFilesV0 entries dir base mf with
    | none => .error "unreachable: collectFiles panic"
    | some filist =>
        .ok { id := (filist.getLast?.map Fileinfo.id).getD 0,
              ring := ringInit filist mf,
              head := 0, tail := filist.length,
              path := path, dir := dir, limit := limit, maxfiles := mf,
              toConsole := false, toFile := true }

/-! ### Concrete states used by counterexamples and witnesses -/

/-- A writer that has absorbed a single 3-byte write into a file with size
limit 5 (retention disabled, merging off), used to exercise the size
rotation. -/
def wSize3 : WState :=
  { fOpen := true, activeBytes := [1, 1, 1], nwrote := 3, limit := 5,
    writeMerge := false, dailyRotate := true, year := 2024, month := 3, day := 9,
    nwm := 0, wmbuf := [], id := 0, rs := ⟨[], 0, 0, 0⟩, rotated := [],
    errLog := [], wq := [], path := "roll.log" }

/-- A writer with merging enabled, one staged byte, and an open file, used
to exercise the sync sentinel's flush failure. -/
def wStaged : WState :=
  { fOpen := true, activeBytes := [], nwrote := 1, limit := 50,
    writeMerge := true, dailyRotate := true, year := 2024, month := 3, day := 9,
    nwm := 1, wmbuf := [7, 0, 0, 0], id := 0, rs := ⟨[], 0, 0, 0⟩, rotated := [],
    errLog := [], wq := [], path := "roll.log" }

/-- A writer with merging enabled and an empty 4-byte staging buffer. -/
def wMerge : WState :=
  { fOpen := true, activeBytes := [9], nwrote := 1, limit := 50,
    writeMerge := true, dailyRotate := true, year := 2024, month := 3, day := 9,
    nwm := 0, wmbuf := [0, 0, 0, 0], id := 0, rs := ⟨[], 0, 0, 0⟩, rotated := [],
    errLog := [], wq := [], path := "roll.log" }

/-- The staging-buffer invariant of the write-merging logic: the fill level
never exceeds the buffer length. -/
def wmInv (w : WState) : Prop :=
  w.nwm ≤ w.wmbuf.length

/-! ### Helper lemmas about the insertion sort used by the scanner model -/

theorem insertByID_length (x : Fileinfo) (l : List Fileinfo) :
    (insertByID x l).length = l.length + 1 := by
  induction l with
  | nil => simp [insertByID]
  | cons y ys ih =>
    by_cases h : x.id ≤ y.id <;> simp [insertByID, h, ih]

theorem sortByID_length (l : List Fileinfo) : (sortByID l).length = l.length := by
  induction l with
  | nil => simp [sortByID]
  | cons x xs ih => simp [sortByID, insertByID_length, ih]

theorem insertByID_perm (x : Fileinfo) (l : List Fileinfo) :
    (insertByID x l).Perm (x :: l) := by
  induction l with
  | nil => simp [insertByID]
  | cons y ys ih =>
    by_cases h : x.id ≤ y.id
    · simp [insertByID, h]
    · simp only [insertByID, if_neg h]
      exact ((ih.cons y).trans (List.Perm.swap x y ys))

theorem sortByID_perm (l : List Fileinfo) : (sortByID l).Perm l := by
  induction l with
  | nil => simp [sortByID]
  | cons x xs ih => exact (insertByID_perm x (sortByID xs)).trans (ih.cons x)

theorem chain'_insertByID (x : Fileinfo) :
    ∀ (l : List Fileinfo), List.Chain' (fun a b => a.id ≤ b.id) l →
      List.Chain' (fun a b => a.id ≤ b.id) (insertByID x l)
  | [], _ => by simp [insertByID]
  | y :: ys, h => by
    by_cases hxy : x.id ≤ y.id
    · rw [insertByID, if_pos hxy, List.chain'_cons]
      exact ⟨hxy, h⟩
    · rw [List.chain'_cons'] at h
      rw [insertByID, if_neg hxy, List.chain'_cons']
      refine ⟨?_, chain'_insertByID x ys h.2⟩
      intro z hz
      cases ys with
      | nil =>
        rw [insertByID] at hz
        simp only [List.head?_cons, Option.mem_def, Option.some.injEq] at hz
        subst hz; omega
      | cons u us =>
        rw [insertByID] at hz
        by_cases hxu : x.id ≤ u.id
        · rw [if_pos hxu] at hz
          simp only [List.head?_cons, Option.mem_def, Option.some.injEq] at hz
          subst hz; omega
        · rw [if_neg hxu] at hz
          simp only [List.head?_cons, Option.mem_def, Option.some.injEq] at hz
          subst hz
          exact h.1 u (by simp)

theorem sortByID_chain' (l : List Fileinfo) :
    List.Chain' (fun a b => a.id ≤ b.id) (sortByID l) := by
  induction l with
  | nil => simp [sortByID]
  | cons x xs ih => exact chain'_insertByID x _ ih

theorem chain'_drop {α : Type} {R : α → α → Prop} (n : Nat) {l : List α}
    (h : List.Chain' R l) : List.Chain' R (l.drop n) := by
  induction n generalizing l with
  | zero => simpa using h
  | succ k ih =>
    cases l with
    | nil => simp
    | cons a l => exact ih h.tail

/-! ### Helper lemmas about the retention ring -/

theorem mod_ne_of_window {a b L : Nat} (h1 : a < b) (h2 : b - a < L) :
    a % L ≠ b % L := by
  intro he
  have hmod : a ≡ b [MOD L] := he
  have hdvd : L ∣ b - a := (Nat.modEq_iff_dvd' (Nat.le_of_lt h1)).1 hmod
  have hle := Nat.le_of_dvd (by omega) hdvd
  omega

/-- Effect on the live list of writing the new record at `tail % len` and
advancing `tail`, when the window is strictly below the array length. -/
theorem live_insert (arr : List Fileinfo) (h t M : Nat) (x : Fileinfo)
    (hle : h ≤ t) (hlt : t - h < arr.length) :
    live ⟨arr.set (t % arr.length) x, h, t + 1, M⟩ = live ⟨arr, h, t, M⟩ ++ [x] := by
  have hL : 0 < arr.length := by omega
  have hn : t + 1 - h = (t - h) + 1 := by omega
  have ht : h + (t - h) = t := by omega
  unfold live
  simp only [List.length_set]
  rw [hn, List.range_succ, List.map_append]
  congr 1
  · apply List.map_congr_left
    intro i hi
    rw [List.mem_range] at hi
    have hne : (h + i) % arr.length ≠ t % arr.length :=
      mod_ne_of_window (by omega) (by omega)
    rw [List.getElem?_set_ne (Ne.symm hne)]
  · simp only [List.map_cons, List.map_nil]
    rw [ht, List.getElem?_set_eq_of_lt x (Nat.mod_lt _ hL)]
    simp

/-- Effect on the live list of the eviction push: write the new record at
`tail % len`, advance both cursors.  Requires a non-empty window that fits in
the array. -/
theorem live_evict_insert (arr : List Fileinfo) (h t M : Nat) (x : Fileinfo)
    (hle : h ≤ t) (hpos : 0 < t - h) (hcap : t - h ≤ arr.length) :
    live ⟨arr.set (t % arr.length) x, h + 1, t + 1, M⟩ =
      (live ⟨arr, h, t, M⟩).tail ++ [x] := by
  have hL : 0 < arr.length := by omega
  obtain ⟨n, hn1⟩ : ∃ n, t - h = n + 1 := ⟨t - h - 1, by omega⟩
  have hn : t + 1 - (h + 1) = n + 1 := by omega
  have ht : h + 1 + n = t := by omega
  unfold live
  simp only [List.length_set]
  rw [hn, hn1]
  conv_rhs => rw [List.range_succ_eq_map]
  rw [List.map_cons, List.tail_cons, List.map_map, List.range_succ, List.map_append]
  congr 1
  · apply List.map_congr_left
    intro i hi
    rw [List.mem_range] at hi
    have hne : (h + 1 + i) % arr.length ≠ t % arr.length :=
      mod_ne_of_window (by omega) (by omega)
    simp only [Function.comp_apply, Nat.succ_eq_add_one]
    have harg : h + (i + 1) = h + 1 + i := by omega
    rw [harg, List.getElem?_set_ne (Ne.symm hne)]
  · simp only [List.map_cons, List.map_nil]
    rw [ht, List.getElem?_set_eq_of_lt x (Nat.mod_lt _ hL)]
    simp

/-- Head of the live list when it is non-empty. -/
theorem live_head (arr : List Fileinfo) (h t M : Nat) (hpos : 0 < t - h) :
    (live ⟨arr, h, t, M⟩).head? = some ((arr[h % arr.length]?).getD default) := by
  obtain ⟨n, hn1⟩ : ∃ n, t - h = n + 1 := ⟨t - h - 1, by omega⟩
  unfold live
  simp only
  rw [hn1, List.range_succ_eq_map]
  simp

/-- In a strictly increasing list the first element is strictly below every
later element. -/
theorem chain'_cons_lt {x : Fileinfo} {xs : List Fileinfo}
    (h : List.Chain' (fun a b => a.id < b.id) (x :: xs)) :
    ∀ y ∈ xs, x.id < y.id := by
  induction xs generalizing x with
  | nil => simp
  | cons u us ih =>
    rw [List.chain'_cons] at h
    intro y hy
    rcases List.mem_cons.1 hy with hy | hy
    · subst hy; exact h.1
    · exact lt_trans h.1 (ih h.2 y hy)

/-- In a strictly increasing list the head has the least id. -/
theorem chain'_head_le {l : List Fileinfo} (h : List.Chain' (fun a b => a.id < b.id) l)
    {a : Fileinfo} (ha : a ∈ l.head?) {b : Fileinfo} (hb : b ∈ l) : a.id ≤ b.id := by
  cases l with
  | nil => simp at hb
  | cons x xs =>
    simp only [List.head?_cons, Option.mem_def, Option.some.injEq] at ha
    subst ha
    rcases List.mem_cons.1 hb with hb | hb
    · subst hb; omega
    · exact le_of_lt (chain'_cons_lt h b hb)

/-! ### Helper lemmas about the scanner -/

theorem collectFiles_pos (entries : List DirEntry) (dir base : String) (mf : Int)
    (hmf : 0 < mf) :
    collectFiles entries dir base mf =
      some ((sortByID (matchList dir base entries)).drop
              (((sortByID (matchList dir base entries)).length : Int) - mf).toNat,
            (matchIds base entries).foldl max 0) := by
  unfold collectFiles
  dsimp only
  rw [if_pos hmf]
  by_cases hcase : ((sortByID (matchList dir base entries)).length : Int) - mf < 0
  · rw [if_pos hcase, if_pos (by omega)]
    have h1 : (((sortByID (matchList dir base entries)).length : Int) - mf).toNat = 0 := by
      omega
    rw [h1]
    norm_num
  · rw [if_neg hcase, if_pos (by omega)]

theorem collectFiles_zero (entries : List DirEntry) (dir base : String) :
    collectFiles entries dir base 0 =
      some ([], (matchIds base entries).foldl max 0) := by
  unfold collectFiles
  norm_num [sortByID]

theorem collectFiles_neg (entries : List DirEntry) (dir base : String) (mf : Int)
    (hmf : mf < 0) : collectFiles entries dir base mf = none := by
  unfold collectFiles
  rw [if_neg (by omega)]

theorem collectFiles_maxid (entries : List DirEntry) (dir base : String) (mf : Int)
    (res : List Fileinfo) (mid : Int)
    (h : collectFiles entries dir base mf = some (res, mid)) :
    mid = (matchIds base entries).foldl max 0 := by
  by_cases h0 : 0 < mf
  · rw [collectFiles_pos entries dir base mf h0] at h
    simp only [Option.some.injEq, Prod.mk.injEq] at h
    exact h.2.symm
  · by_cases h1 : mf = 0
    · subst h1
      rw [collectFiles_zero entries dir base] at h
      simp only [Option.some.injEq, Prod.mk.injEq] at h
      exact h.2.symm
    · rw [collectFiles_neg entries dir base mf (by omega)] at h
      cases h

theorem le_foldl_max (l : List Int) : ∀ a : Int, a ≤ l.foldl max a := by
  induction l with
  | nil => intro a; simp
  | cons x xs ih =>
    intro a
    simpa using le_trans (le_max_left a x) (ih (max a x))

theorem mem_le_foldl_max (l : List Int) : ∀ (a : Int), ∀ i ∈ l, i ≤ l.foldl max a := by
  induction l with
  | nil => simp
  | cons x xs ih =>
    intro a i hi
    rcases List.mem_cons.1 hi with h | h
    · subst h
      simpa using le_trans (le_max_right a i) (le_foldl_max xs (max a i))
    · simpa using ih (max a x) i h

/-! ### Helper lemmas about the staging buffer -/

theorem copyAt_length (dst : List Nat) (off : Nat) (src : List Nat) :
    (copyAt dst off src).length = dst.length := by
  simp [copyAt]
  omega

theorem copyAt_take (dst : List Nat) (off : Nat) (src : List Nat)
    (h : off + src.length ≤ dst.length) :
    (copyAt dst off src).take (off + src.length) = dst.take off ++ src := by
  have hA : (dst.take off).length = off := by
    rw [List.length_take]
    omega
  unfold copyAt
  rw [List.take_of_length_le (l := src) (by omega)]
  rw [List.take_append_eq_append_take]
  have hAB : (dst.take off ++ src).length = off + src.length := by
    rw [List.length_append, hA]
  rw [List.take_of_length_le (by rw [hAB]), hAB]
  simp

theorem flushwm_wm (e : Option String) (w : WState) :
    (flushwm e w).2.nwm = 0 ∧ (flushwm e w).2.wmbuf = w.wmbuf := by
  cases e <;> simp [flushwm]

theorem rotate_wm (o : RotOut) (y m d : Int) (w : WState) :
    ∀ e w1, rotate o y m d w = some (e, w1) →
      (w1.nwm = 0 ∨ w1.nwm = w.nwm) ∧ w1.wmbuf = w.wmbuf := by
  intro e w1 h1
  unfold rotate at h1
  by_cases h0 : 0 < w.nwm
  · rw [if_pos h0] at h1
    unfold flushwm at h1
    cases ho : o.flushErr with
    | some er =>
      rw [ho] at h1
      dsimp only at h1
      simp only [Option.some.injEq, Prod.mk.injEq] at h1
      obtain ⟨-, hw⟩ := h1
      subst hw
      simp
    | none =>
      rw [ho] at h1
      dsimp only at h1
      by_cases hM : 0 < w.rs.maxfiles
      · rw [if_pos hM] at h1
        cases hp : push w.rs (w.id + 1)
            (goName w.path w.year w.month w.day (w.id + 1)) with
        | none => rw [hp] at h1; dsimp only at h1; cases h1
        | some pr =>
          rw [hp] at h1
          dsimp only at h1
          unfold openFile at h1
          cases hr : o.openRes <;>
            · rw [hr] at h1
              simp only [Option.some.injEq, Prod.mk.injEq] at h1
              obtain ⟨-, hw⟩ := h1
              subst hw
              simp
      · rw [if_neg hM] at h1
        dsimp only at h1
        unfold openFile at h1
        cases hr : o.openRes <;>
          · rw [hr] at h1
            simp only [Option.some.injEq, Prod.mk.injEq] at h1
            obtain ⟨-, hw⟩ := h1
            subst hw
            simp
  · rw [if_neg h0] at h1
    dsimp only at h1
    have hz : w.nwm = 0 := by omega
    by_cases hM : 0 < w.rs.maxfiles
    · rw [if_pos hM] at h1
      cases hp : push w.rs (w.id + 1)
          (goName w.path w.year w.month w.day (w.id + 1)) with
      | none => rw [hp] at h1; dsimp only at h1; cases h1
      | some pr =>
        rw [hp] at h1
        dsimp only at h1
        unfold openFile at h1
        cases hr : o.openRes <;>
          · rw [hr] at h1
            simp only [Option.some.injEq, Prod.mk.injEq] at h1
            obtain ⟨-, hw⟩ := h1
            subst hw
            simp [hz]
    · rw [if_neg hM] at h1
      dsimp only at h1
      unfold openFile at h1
      cases hr : o.openRes <;>
        · rw [hr] at h1
          simp only [Option.some.injEq, Prod.mk.injEq] at h1
          obtain ⟨-, hw⟩ := h1
          subst hw
          simp [hz]


theorem openFile_wm (res : Option Nat) (y m d : Int) (w : WState) :
    (openFile res y m d w).2.nwm = w.nwm ∧ (openFile res y m d w).2.wmbuf = w.wmbuf := by
  cases res <;> simp [openFile]

theorem rotate_wmInv (o : RotOut) (y m d : Int) (w : WState) (h : wmInv w) :
    ∀ e w1, rotate o y m d w = some (e, w1) → wmInv w1 := by
  intro e w1 h1
  obtain ⟨hn, hb⟩ := rotate_wm o y m d w e w1 h1
  unfold wmInv at *
  rw [hb]
  rcases hn with hn | hn <;> rw [hn] <;> omega

theorem writeTail_wmInv (oF oW : Option String) (p : List Nat) (w : WState)
    (h : wmInv w) : ∀ e w1, writeTail oF oW p w = some (e, w1) → wmInv w1 := by
  intro e w1 h1
  unfold writeTail at h1
  unfold wmInv at *
  by_cases hm : w.writeMerge = true
  · rw [if_pos hm] at h1
    by_cases hA : w.nwm ≠ 0 ∧ w.wmbuf.length < w.nwm + p.length
    · rw [if_pos hA] at h1
      unfold flushwm at h1
      cases ho : oF with
      | some er =>
        rw [ho] at h1
        dsimp only at h1
        simp only [Option.some.injEq, Prod.mk.injEq] at h1
        obtain ⟨-, hw⟩ := h1
        subst hw
        simp
      | none =>
        rw [ho] at h1
        dsimp only at h1
        by_cases hB : p.length ≤ w.wmbuf.length
        · rw [if_pos hB] at h1
          simp only [Option.some.injEq, Prod.mk.injEq] at h1
          obtain ⟨-, hw⟩ := h1
          subst hw
          dsimp only
          rw [copyAt_length]
          omega
        · rw [if_neg hB] at h1
          unfold directWrite at h1
          cases hw2 : oW <;>
            · rw [hw2] at h1
              simp only [Option.some.injEq, Prod.mk.injEq] at h1
              obtain ⟨-, hw⟩ := h1
              subst hw
              simp
    · rw [if_neg hA] at h1
      dsimp only at h1
      by_cases hB : p.length ≤ w.wmbuf.length
      · rw [if_pos hB] at h1
        simp only [Option.some.injEq, Prod.mk.injEq] at h1
        obtain ⟨-, hw⟩ := h1
        subst hw
        dsimp only
        rw [copyAt_length]
        omega
      · rw [if_neg hB] at h1
        unfold directWrite at h1
        cases hw2 : oW <;>
          · rw [hw2] at h1
            simp only [Option.some.injEq, Prod.mk.injEq] at h1
            obtain ⟨-, hw⟩ := h1
            subst hw
            exact h
  · rw [if_neg hm] at h1
    unfold directWrite at h1
    cases hw2 : oW <;>
      · rw [hw2] at h1
        simp only [Option.some.injEq, Prod.mk.injEq] at h1
        obtain ⟨-, hw⟩ := h1
        subst hw
        exact h


theorem write_wmInv_tail (oZ : RotOut) (oF oW : Option String)
    (y m d : Int) (p : List Nat) (w2 : WState) (h : wmInv w2) :
    ∀ e w1,
      (let w3 := { w2 with nwrote := w2.nwrote + (p.length : Int) }
       if 0 < w3.limit ∧ w3.limit < w3.nwrote then
         match rotate oZ y m d w3 with
         | none => none
         | some (some e, w4) => some (some e, w4)
         | some (none, w4) => writeTail oF oW p { w4 with nwrote := (p.length : Int) }
       else writeTail oF oW p w3) = some (e, w1) → wmInv w1 := by
  intro e w1 h1
  dsimp only at h1
  have hinv3 : wmInv { w2 with nwrote := w2.nwrote + (p.length : Int) } := h
  by_cases hz : 0 < w2.limit ∧ w2.limit < w2.nwrote + (p.length : Int)
  · rw [if_pos hz] at h1
    cases hrot : rotate oZ y m d { w2 with nwrote := w2.nwrote + (p.length : Int) } with
    | none => rw [hrot] at h1; cases h1
    | some pr =>
      obtain ⟨e2, w4⟩ := pr
      rw [hrot] at h1
      have hinv4 : wmInv w4 :=
        rotate_wmInv oZ y m d _ hinv3 e2 w4 hrot
      cases e2 with
      | some er =>
        dsimp only at h1
        simp only [Option.some.injEq, Prod.mk.injEq] at h1
        obtain ⟨-, hw⟩ := h1
        subst hw
        exact hinv4
      | none =>
        exact writeTail_wmInv oF oW p
          { w4 with nwrote := (p.length : Int) } hinv4 e w1 h1
  · rw [if_neg hz] at h1
    exact writeTail_wmInv oF oW p
      { w2 with nwrote := w2.nwrote + (p.length : Int) } hinv3 e w1 h1

theorem write_wmInv (oO : Option Nat) (oD oZ : RotOut) (oF oW : Option String)
    (y m d : Int) (p : List Nat) (w : WState) (h : wmInv w) :
    ∀ e w1, write oO oD oZ oF oW y m d p w = some (e, w1) → wmInv w1 := by
  intro e w1 h1
  unfold write at h1
  have step1 : ∃ w2, (if w.fOpen then ((none : Option String), w) else openFile oO y m d w) =
      (if w.fOpen then ((none : Option String), w) else openFile oO y m d w) := ⟨w, rfl⟩
  clear step1
  set s1 := if w.fOpen then ((none : Option String), w) else openFile oO y m d w with hs1
  have hinv1 : wmInv s1.2 := by
    rw [hs1]
    by_cases hf : w.fOpen = true
    · rw [if_pos hf]; exact h
    · rw [if_neg hf]
      unfold wmInv
      rw [(openFile_wm oO y m d w).1, (openFile_wm oO y m d w).2]
      exact h
  obtain ⟨e1, w2⟩ := s1
  cases e1 with
  | some er =>
    dsimp only at h1
    simp only [Option.some.injEq, Prod.mk.injEq] at h1
    obtain ⟨-, hw⟩ := h1
    subst hw
    exact hinv1
  | none =>
    dsimp only at h1 hinv1
    by_cases hd : w2.dailyRotate ∧ d ≠ w2.day
    · rw [if_pos hd] at h1
      cases hrot : rotate oD y m d w2 with
      | none => rw [hrot] at h1; cases h1
      | some pr =>
        obtain ⟨e2, w3⟩ := pr
        rw [hrot] at h1
        have hinv2 : wmInv w3 := rotate_wmInv oD y m d w2 hinv1 e2 w3 hrot
        cases e2 with
        | some er =>
          dsimp only at h1
          simp only [Option.some.injEq, Prod.mk.injEq] at h1
          obtain ⟨-, hw⟩ := h1
          subst hw
          exact hinv2
        | none =>
          dsimp only at h1
          exact write_wmInv_tail oZ oF oW y m d p w3 hinv2 e w1 h1
    · rw [if_neg hd] at h1
      dsimp only at h1
      exact write_wmInv_tail oZ oF oW y m d p w2 hinv1 e w1 h1



theorem sentinel_wmInv (oF oS : Option String) (w : WState) (h : wmInv w) :
    wmInv (ioprocSentinel oF oS w) := by
  unfold ioprocSentinel
  by_cases hf : w.fOpen = true
  · rw [if_pos hf]
    dsimp only
    by_cases hn : 0 < w.nwm
    · rw [if_pos hn]
      obtain ⟨h0, hb⟩ := flushwm_wm oF w
      unfold wmInv
      cases hs1 : (flushwm oF w).1 with
      | some e1 =>
        dsimp only
        rw [h0, hb]
        omega
      | none =>
        dsimp only
        cases oS with
        | none => rw [h0, hb]; omega
        | some e2 => dsimp only; rw [h0, hb]; omega
    · rw [if_neg hn]
      dsimp only
      cases oS with
      | none => exact h
      | some e2 => exact h
  · rw [if_neg hf]
    exact h

theorem writeTail_content (p : List Nat) (w : WState) (hm : w.writeMerge = true)
    (h : wmInv w) :
    ∃ w1, writeTail none none p w = some (none, w1) ∧
      w1.activeBytes ++ w1.wmbuf.take w1.nwm =
        w.activeBytes ++ w.wmbuf.take w.nwm ++ p ∧
      wmInv w1 ∧
      (w.wmbuf.length < p.length → w1.nwm = 0 ∧
        w1.activeBytes = w.activeBytes ++ w.wmbuf.take w.nwm ++ p) := by
  unfold wmInv at h
  unfold writeTail
  rw [if_pos hm]
  by_cases hA : w.nwm ≠ 0 ∧ w.wmbuf.length < w.nwm + p.length
  · rw [if_pos hA]
    unfold flushwm
    dsimp only
    by_cases hB : p.length ≤ w.wmbuf.length
    · rw [if_pos hB]
      refine ⟨_, rfl, ?_, ?_, ?_⟩
      · dsimp only
        have hmin : min p.length (w.wmbuf.length - 0) = p.length := by omega
        rw [hmin]
        rw [show (0 : Nat) + p.length = p.length from by omega]
        have := copyAt_take w.wmbuf 0 p (by omega)
        rw [show (0 : Nat) + p.length = p.length from by omega] at this
        rw [this]
        simp [List.append_assoc]
      · unfold wmInv
        dsimp only
        rw [copyAt_length]
        omega
      · intro hov
        omega
    · rw [if_neg hB]
      unfold directWrite
      dsimp only
      refine ⟨_, rfl, ?_, ?_, ?_⟩
      · dsimp only
        simp [List.append_assoc]
      · unfold wmInv
        dsimp only
        omega
      · intro hov
        dsimp only
        simp [List.append_assoc]
  · rw [if_neg hA]
    dsimp only
    by_cases hB : p.length ≤ w.wmbuf.length
    · rw [if_pos hB]
      have hfit : w.nwm + p.length ≤ w.wmbuf.length := by
        rcases Decidable.not_and_iff_or_not.1 hA with h1 | h1
        · have : w.nwm = 0 := by omega
          omega
        · omega
      refine ⟨_, rfl, ?_, ?_, ?_⟩
      · dsimp only
        have hmin : min p.length (w.wmbuf.length - w.nwm) = p.length := by omega
        rw [hmin, copyAt_take w.wmbuf w.nwm p hfit]
        simp [List.append_assoc]
      · unfold wmInv
        dsimp only
        rw [copyAt_length]
        omega
      · intro hov
        omega
    · rw [if_neg hB]
      have hz : w.nwm = 0 := by
        rcases Decidable.not_and_iff_or_not.1 hA with h1 | h1
        · omega
        · omega
      unfold directWrite
      dsimp only
      refine ⟨_, rfl, ?_, ?_, ?_⟩
      · rw [hz]
        simp
      · unfold wmInv
        dsimp only
        omega
      · intro hov
        rw [hz]
        simp

/-! ### Claim theorems -/

/-- C8: a `Write` call with a zero-length buffer is a no-op: it returns
`(0, nil)`, enqueues nothing, and leaves the writer state (queue included)
unchanged. -/
theorem c8_write_empty_noop :
    ∀ w : WState, Write w [] = ((0, none), w) ∧ (Write w []).2.wq = w.wq := by
  intro w
  constructor <;> rfl

/-- C9 (as stated): for every non-empty `p`, `Write` returns `(len p, nil)`
unconditionally — the result does not depend on any worker-observable state
such as the file handle, the error log or the accounting — and the enqueued
buffer is a fresh copy whose bytes equal `p` at call time. -/
theorem c9_write_nonempty :
    ∀ (w : WState) (p : List Nat), p ≠ [] →
      Write w p = ((p.length, none), { w with wq := w.wq ++ [some p] }) := by
  intro w p hp
  have hl : ¬(p.length = 0) := by simpa using hp
  have hcopy : copyAt (List.replicate p.length 0) 0 p = p := by
    unfold copyAt
    simp
  unfold Write
  rw [if_neg hl]
  simp [hcopy]

/-- C9 witness: `Write` at a concrete state and buffer. -/
theorem c9_write_nonempty_witness :
    (([1, 2] : List Nat) ≠ []) ∧
      Write wMerge [1, 2] = ((2, none), { wMerge with wq := wMerge.wq ++ [some [1, 2]] }) :=
  ⟨by decide, c9_write_nonempty wMerge [1, 2] (by decide)⟩

/-- C3 (amended): for every `push(id, path)` on an enabled ring
(`maxfiles > 0`) satisfying the ring invariant and with `id` above every
live id: when the ring already holds `maxfiles` live records, `push` returns
the path of the live record with the smallest sequence id (the oldest) and
the live count stays at `maxfiles`; otherwise it returns the empty string
(absent) and the live count grows by one; the invariant (live count at most
capacity, strictly increasing ids) is preserved.  Moreover the synchronous
variant's `ringPush` coincides with `push` whenever `maxfiles > 0`.  (The
capacity-0 clause of the original claim is refuted separately: the engine
never invokes `push` with `maxfiles = 0`, and on the backing array the
constructor builds for that configuration `push` faults instead of
returning absent.) -/
theorem c3_push_ring_invariants :
    (∀ (r : Ring) (id : Int) (name : String),
      RingInv r → 0 < r.maxfiles → (∀ f ∈ live r, f.id < id) →
      ∃ pop r1, push r id name = some (pop, r1) ∧ RingInv r1 ∧
        r1.maxfiles = r.maxfiles ∧
        (liveCount r = r.maxfiles →
          pop = ((live r).head?.getD default).path ∧
          (∀ f ∈ live r, ((live r).head?.getD default).id ≤ f.id) ∧
          live r1 = (live r).tail ++ [⟨id, name⟩] ∧ liveCount r1 = r.maxfiles) ∧
        (liveCount r < r.maxfiles →
          pop = "" ∧ live r1 = live r ++ [⟨id, name⟩] ∧
          liveCount r1 = liveCount r + 1)) ∧
    (∀ (r : Ring) (id : Int) (name : String),
      0 < r.maxfiles → ringPush r id name = push r id name) := by
  constructor
  · rintro ⟨arr, hh, t, M⟩ id name hInv hM hid
    unfold RingInv liveCount at *
    dsimp only at *
    obtain ⟨h1, h2, h3, h4⟩ := hInv
    have hL : 0 < arr.length := lt_of_lt_of_le hM h3
    by_cases hcap : M + hh = t
    · have hth : t - hh = M := by omega
      have hlive := live_evict_insert arr hh t M ⟨id, name⟩ h1 (by omega) (by omega)
      have hhead := live_head arr hh t M (by omega)
      refine ⟨((arr[hh % arr.length]?).getD default).path,
        ⟨arr.set (t % arr.length) ⟨id, name⟩, hh + 1, t + 1, M⟩, ?_, ?_, rfl, ?_, ?_⟩
      · unfold push
        dsimp only
        rw [if_neg (by omega)]
        simp [hcap]
      · dsimp only
        refine ⟨by omega, by omega, by simpa [List.length_set] using h3, ?_⟩
        rw [hlive, List.chain'_append]
        refine ⟨h4.tail, by simp, ?_⟩
        intro a ha b hb
        simp only [List.head?_cons, Option.mem_def, Option.some.injEq] at hb
        subst hb
        have hmem : a ∈ live ⟨arr, hh, t, M⟩ :=
          List.Sublist.mem (List.mem_of_mem_getLast? ha) (List.tail_sublist _)
        exact hid a hmem
      · intro _
        rw [hhead]
        refine ⟨rfl, ?_, hlive, by dsimp only; omega⟩
        intro f hf
        exact chain'_head_le h4 (by rw [hhead]; rfl) hf
      · intro hlt
        exfalso
        omega
    · have hlt : t - hh < M := by omega
      have hlive := live_insert arr hh t M ⟨id, name⟩ h1 (by omega)
      refine ⟨"", ⟨arr.set (t % arr.length) ⟨id, name⟩, hh, t + 1, M⟩, ?_, ?_, rfl, ?_, ?_⟩
      · unfold push
        dsimp only
        rw [if_neg (by omega)]
        simp [hcap]
      · dsimp only
        refine ⟨by omega, by omega, by simpa [List.length_set] using h3, ?_⟩
        rw [hlive, List.chain'_append]
        refine ⟨h4, by simp, ?_⟩
        intro a ha b hb
        simp only [List.head?_cons, Option.mem_def, Option.some.injEq] at hb
        subst hb
        exact hid a (List.mem_of_mem_getLast? ha)
      · intro hcap2
        exfalso
        omega
      · intro _
        exact ⟨rfl, hlive, by dsimp only; omega⟩
  · rintro ⟨arr, hh, t, M⟩ id name hM
    unfold ringPush push
    dsimp only at hM ⊢
    by_cases hz : arr.length = 0
    · rw [if_pos hz, if_pos hz]
    · rw [if_neg hz, if_neg hz]
      have hMne : M ≠ 0 := by omega
      by_cases hcap : M + hh = t
      · simp [hcap, hMne]
      · simp [hcap]

/-- C3 counterexample: the capacity-0 clause of the claim fails on the
code.  On a capacity-0 ring with a non-empty backing array and an empty
window, `push` takes the eviction branch (`maxfiles + head == tail` holds
trivially), returns the non-absent leftover path `"x"`, and the live count
stays at 0 instead of growing by one; on the empty backing array actually
built by the constructor when `maxfiles = 0`, `push` faults
(modulo-by-zero) instead of returning absent. -/
theorem c3_counterexample :
    push ⟨[⟨5, "x"⟩], 0, 0, 0⟩ 1 "a" = some ("x", ⟨[⟨1, "a"⟩], 1, 1, 0⟩) ∧
    liveCount ⟨[⟨5, "x"⟩], 0, 0, 0⟩ = 0 ∧
    liveCount ⟨[⟨1, "a"⟩], 1, 1, 0⟩ = 0 ∧
    ("x" : String) ≠ "" ∧
    push ⟨[], 0, 0, 0⟩ 1 "a" = none := by
  refine ⟨by decide, by decide, by decide, by decide, by decide⟩

/-- C3 witness: a full ring of capacity 2 accepts a third record, evicting
the oldest. -/
theorem c3_push_ring_invariants_witness :
    (RingInv ⟨[⟨1, "a"⟩, ⟨2, "b"⟩], 0, 2, 2⟩ ∧
      0 < (⟨[⟨1, "a"⟩, ⟨2, "b"⟩], 0, 2, 2⟩ : Ring).maxfiles ∧
      ∀ f ∈ live ⟨[⟨1, "a"⟩, ⟨2, "b"⟩], 0, 2, 2⟩, f.id < 3) ∧
    ∃ pop r1, push ⟨[⟨1, "a"⟩, ⟨2, "b"⟩], 0, 2, 2⟩ 3 "c" = some (pop, r1) ∧ RingInv r1 := by
  have hl : live ⟨[⟨1, "a"⟩, ⟨2, "b"⟩], 0, 2, 2⟩ = [⟨1, "a"⟩, ⟨2, "b"⟩] := by decide
  have hchain : List.Chain' (fun a b : Fileinfo => a.id < b.id)
      (live ⟨[⟨1, "a"⟩, ⟨2, "b"⟩], 0, 2, 2⟩) := by
    rw [hl]
    exact List.chain'_cons.2 ⟨by decide, by simp⟩
  have hinv : RingInv ⟨[⟨1, "a"⟩, ⟨2, "b"⟩], 0, 2, 2⟩ :=
    ⟨by decide, by decide, by decide, hchain⟩
  refine ⟨⟨hinv, by decide, ?_⟩, ?_⟩
  · rw [hl]; decide
  · obtain ⟨pop, r1, he, hi, -⟩ :=
      c3_push_ring_invariants.1 ⟨[⟨1, "a"⟩, ⟨2, "b"⟩], 0, 2, 2⟩ 3 "c"
        hinv (by decide) (by rw [hl]; decide)
    exact ⟨pop, r1, he, hi⟩

/-- C5 (amended): `Sync()` always returns nil (it only enqueues the
sentinel and waits); an I/O error observed by the worker while processing
the sentinel is appended to the stderr error sink and invalidates the file
handle, but is never surfaced through `Sync`'s return value. -/
theorem c5_sync_always_nil :
    (∀ w : WState, (Sync w).2 = none ∧ (Sync w).1.wq = w.wq ++ [none]) ∧
    (∀ (w : WState) (e : String) (oSync : Option String),
      w.fOpen = true → 0 < w.nwm →
      (ioprocSentinel (some e) oSync w).errLog = w.errLog ++ [e] ∧
      (ioprocSentinel (some e) oSync w).fOpen = false) := by
  constructor
  · intro w; exact ⟨rfl, rfl⟩
  · intro w e oSync hf hn
    unfold ioprocSentinel flushwm
    rw [hf, if_pos rfl, if_pos hn]
    exact ⟨rfl, rfl⟩

/-- C5 counterexample: an I/O error exists (a failing staged flush was just
recorded to stderr by the worker), yet the next `Sync` call returns `none`
rather than that error — refuting the claim that `Sync()` returns the most
recent worker-observed I/O error when one exists. -/
theorem c5_counterexample :
    (ioprocSentinel (some "disk full") none wStaged).errLog = ["disk full"] ∧
    (Sync (ioprocSentinel (some "disk full") none wStaged)).2 = none := by
  exact ⟨rfl, rfl⟩

/-- C5 witness: the amended theorem applied at a concrete staged state. -/
theorem c5_sync_always_nil_witness :
    (wStaged.fOpen = true ∧ 0 < wStaged.nwm) ∧
    ((ioprocSentinel (some "boom") none wStaged).errLog = wStaged.errLog ++ ["boom"] ∧
      (ioprocSentinel (some "boom") none wStaged).fOpen = false) ∧
    (Sync wStaged).2 = none :=
  ⟨⟨rfl, by decide⟩,
    c5_sync_always_nil.2 wStaged "boom" none rfl (by decide),
    (c5_sync_always_nil.1 wStaged).1⟩

/-- C7 (amended): the synchronous constructor `NewWriter` fails fast,
returning `errors.New("invalid argument")` exactly when the path is empty,
the size limit is non-positive or the retention count is negative, and a
writer otherwise; the pipeline constructor `New` performs no validation:
with an empty path or a non-positive limit it still returns a writer, and a
negative retention count makes it fault inside the startup scan instead of
returning an error. -/
theorem c7_construction_validation :
    (∀ entries path dir base limit mf,
      (path = "" ∨ limit ≤ 0 ∨ mf < 0) →
      NewWriter entries path dir base limit mf = .error "invalid argument") ∧
    (∀ entries path dir base limit mf,
      path ≠ "" → 0 < limit → 0 ≤ mf →
      ∃ wg, NewWriter entries path dir base limit mf = .ok wg ∧
        wg.limit = limit ∧ wg.maxfiles = mf) ∧
    (∀ entries dir base limit, (New entries "" dir base limit 0).isSome = true) ∧
    (∀ entries path dir base limit mf, mf < 0 →
      New entries path dir base limit mf = none) := by
  refine ⟨?_, ?_, ?_, ?_⟩
  · intro entries path dir base limit mf hbad
    unfold NewWriter
    rw [if_pos hbad]
  · intro entries path dir base limit mf hp hl hmf
    unfold NewWriter
    rw [if_neg (by push_neg; exact ⟨hp, by omega, by omega⟩)]
    by_cases h0 : mf = 0
    · subst h0
      unfold collectFilesV0
      rw [if_pos rfl]
      exact ⟨_, rfl, rfl, rfl⟩
    · unfold collectFilesV0
      rw [if_neg h0, if_neg (by omega)]
      exact ⟨_, rfl, rfl, rfl⟩
  · intro entries dir base limit
    unfold New collectFiles
    norm_num [sortByID]
  · intro entries path dir base limit mf hmf
    unfold New collectFiles
    rw [if_neg (by omega)]

/-- C7 counterexample: `New` called with an empty path and a zero (hence
non-positive) size limit still returns a writer and has no error result at
all — refuting the claim that every constructor rejects invalid
configurations synchronously. -/
theorem c7_counterexample :
    (New [] "" "." "." 0 0).isSome = true := by
  decide

/-- C7 witness: both branches of `NewWriter`'s validation and `New`'s
negative-retention fault at concrete arguments. -/
theorem c7_construction_validation_witness :
    (("" : String) = "" ∨ (0 : Int) ≤ 0 ∨ (0 : Int) < 0) ∧
    NewWriter [] "" "." "." 0 0 = .error "invalid argument" ∧
    (("x" : String) ≠ "" ∧ (0 : Int) < 1 ∧ (0 : Int) ≤ 0) ∧
    (∃ wg, NewWriter [] "x" "." "x" 1 0 = .ok wg ∧ wg.limit = 1 ∧ wg.maxfiles = 0) ∧
    ((-1 : Int) < 0) ∧ New [] "x" "." "x" 1 (-1) = none :=
  ⟨Or.inl rfl,
    c7_construction_validation.1 [] "" "." "." 0 0 (Or.inl rfl),
    ⟨by decide, by decide, by decide⟩,
    c7_construction_validation.2.1 [] "x" "." "x" 1 0 (by decide) (by decide) (by decide),
    by decide,
    c7_construction_validation.2.2.2 [] "x" "." "x" 1 (-1) (by decide)⟩

/-- C2 (amended): every rotated file is named
`path + "." + %04d year + "-" + %02d month + "-" + %02d day + "." + id`.
In the pipeline variant the date is the full stored watermark
(`w.year, w.month, w.day` at the last write), regardless of the current
date, so a daily rotation observed on the 1st carries the watermark's prior
month/year.  In the synchronous variant only the day comes from the
watermark: the year/month are the current date's, decremented by one month
whenever the current day-of-month is 1 (wrapping January to December of the
previous year) — which also yields the prior month/year for every daily
rotation observed on the 1st, but misdates size rotations that happen on
the 1st. -/
theorem c2_rotated_naming :
    (∀ (o : RotOut) (y m d : Int) (w : WState) (sz : Nat),
      w.nwm = 0 → w.rs.maxfiles = 0 → o.openRes = some sz →
      ∃ w1, rotate o y m d w = some (none, w1) ∧
        w1.rotated = w.rotated ++
          [(goName w.path w.year w.month w.day (w.id + 1), w.activeBytes)]) ∧
    (∀ (path : String) (y m d wday id : Int), d ≠ 1 →
      wgRotateName path y m d wday id = goName path y m wday id) ∧
    (∀ (path : String) (y m wday id : Int), m ≠ 1 →
      wgRotateName path y m 1 wday id = goName path y (m - 1) wday id) ∧
    (∀ (path : String) (y wday id : Int),
      wgRotateName path y 1 1 wday id = goName path (y - 1) 12 wday id) := by
  refine ⟨?_, ?_, ?_, ?_⟩
  · intro o y m d w sz hnwm hmax hopen
    unfold rotate
    rw [if_neg (by omega)]
    dsimp only
    rw [if_neg (by omega)]
    dsimp only
    unfold openFile
    rw [hopen]
    exact ⟨_, rfl, rfl⟩
  · intro path y m d wday id hd
    unfold wgRotateName
    dsimp only
    rw [if_neg hd]
    rw [if_neg (by simp [hd])]
    rw [if_neg (by simp [hd])]
  · intro path y m wday id hm
    unfold wgRotateName
    dsimp only
    rw [if_pos rfl]
    rw [if_neg (by simp only [true_and]; omega)]
    rw [if_neg (by simp only [true_and]; omega)]
  · intro path y wday id
    unfold wgRotateName
    dsimp only
    rw [if_pos rfl]
    rw [if_pos (by norm_num)]
    rw [if_pos (by norm_num)]

/-- C2 counterexample: a size rotation of the synchronous variant observed
on 2024-02-01 with the stored watermark day also 1 (the day being closed
out is February 1st) produces the name `roll.log.2024-01-01.7` — the
previous month — and not the stored-watermark date `roll.log.2024-02-01.7`
required by the claim. -/
theorem c2_counterexample :
    wgRotateName "roll.log" 2024 2 1 1 7 = "roll.log.2024-01-01.7" ∧
    goName "roll.log" 2024 2 1 7 = "roll.log.2024-02-01.7" ∧
    wgRotateName "roll.log" 2024 2 1 1 7 ≠ goName "roll.log" 2024 2 1 7 := by
  refine ⟨by decide, by decide, by decide⟩

/-- C2 witness: the pipeline `rotate` called on 2024-04-01 names the file
from the stored watermark 2024-03-09, and the synchronous name adjustment
at concrete dates. -/
theorem c2_rotated_naming_witness :
    (wSize3.nwm = 0 ∧ wSize3.rs.maxfiles = 0 ∧
      ((⟨none, some 0⟩ : RotOut).openRes = some 0)) ∧
    (∃ w1, rotate ⟨none, some 0⟩ 2024 4 1 wSize3 = some (none, w1) ∧
      w1.rotated = wSize3.rotated ++
        [(goName wSize3.path wSize3.year wSize3.month wSize3.day (wSize3.id + 1),
          wSize3.activeBytes)]) ∧
    ((2 : Int) ≠ 1 ∧ wgRotateName "a" 2024 5 2 2 3 = goName "a" 2024 5 2 3) ∧
    ((3 : Int) ≠ 1 ∧ wgRotateName "a" 2024 3 1 31 4 = goName "a" 2024 2 31 4) ∧
    wgRotateName "a" 2024 1 1 31 4 = goName "a" 2023 12 31 4 :=
  ⟨⟨rfl, rfl, rfl⟩,
    c2_rotated_naming.1 ⟨none, some 0⟩ 2024 4 1 wSize3 0 rfl rfl rfl,
    ⟨by decide, c2_rotated_naming.2.1 "a" 2024 5 2 2 3 (by decide)⟩,
    ⟨by decide, by
      have h := c2_rotated_naming.2.2.1 "a" 2024 3 31 4 (by decide)
      norm_num at h ⊢
      exact h⟩,
    c2_rotated_naming.2.2.2 "a" 2024 31 4⟩

/-- C1 (amended): when a write `p` pushes the cumulative bytes written
since the last rotation past the limit `L > 0`, the rotation happens
immediately, before `p` is applied: the file whose accounting overflowed is
rotated containing only the earlier writes, `p` is then applied in full
(never split or dropped) to the fresh active file opened by that rotation,
and the new file's size accounting starts at `len p`.  In particular a
rotation occurs before the next write is applied. -/
theorem c1_rotate_before_write :
    ∀ (oFlush : Option String) (y m : Int) (p : List Nat) (w : WState) (sz : Nat),
      w.fOpen = true → w.writeMerge = false → w.nwm = 0 → w.rs.maxfiles = 0 →
      0 < w.limit → w.limit < w.nwrote + (p.length : Int) →
      ∃ w1, write (some 0) ⟨none, some 0⟩ ⟨none, some sz⟩ oFlush none
          y m w.day p w = some (none, w1) ∧
        w1.activeBytes = p ∧
        w1.nwrote = (p.length : Int) ∧
        w1.id = w.id + 1 ∧
        w1.rotated = w.rotated ++
          [(goName w.path w.year w.month w.day (w.id + 1), w.activeBytes)] ∧
        w1.fOpen = true := by
  intro oFlush y m p w sz hf hmerge hnwm hmax hlim hover
  unfold write
  rw [if_pos hf]
  dsimp only
  rw [if_neg (by simp)]
  dsimp only
  rw [if_pos (⟨hlim, hover⟩ : 0 < w.limit ∧ w.limit < w.nwrote + (p.length : Int))]
  unfold rotate
  rw [if_neg (by dsimp only; omega)]
  dsimp only
  rw [if_neg (by omega)]
  dsimp only
  unfold openFile
  dsimp only
  unfold writeTail
  rw [if_neg (by simp [hmerge])]
  unfold directWrite
  dsimp only
  exact ⟨_, rfl, rfl, rfl, rfl, rfl, rfl⟩

/-- C1 counterexample: with limit 5 and 3 bytes already written, the write
`[2,2,2]` pushes the cumulative size to 6 > 5; the code rotates first and
then writes, so the rotated file contains only the earlier bytes `[1,1,1]`
and not the triggering write, which lands in the fresh active file —
refuting the claim that the overflowing write is applied to the file that
triggered the overflow. -/
theorem c1_counterexample :
    write (some 0) ⟨none, some 0⟩ ⟨none, some 0⟩ none none 2024 3 9 [2, 2, 2] wSize3 =
      some (none,
        { wSize3 with activeBytes := [2, 2, 2], nwrote := 3, id := 1,
                      rotated := [("roll.log.2024-03-09.1", [1, 1, 1])] }) ∧
    ([2, 2, 2] : List Nat).isSuffixOf [1, 1, 1] = false := by
  refine ⟨by decide, by decide⟩

/-- C1 witness: the amended theorem applied at the same concrete state. -/
theorem c1_rotate_before_write_witness :
    (wSize3.fOpen = true ∧ wSize3.writeMerge = false ∧ wSize3.nwm = 0 ∧
      wSize3.rs.maxfiles = 0 ∧ 0 < wSize3.limit ∧
      wSize3.limit < wSize3.nwrote + ((([2, 2, 2] : List Nat)).length : Int)) ∧
    ∃ w1, write (some 0) ⟨none, some 0⟩ ⟨none, some 7⟩ none none
        2024 3 wSize3.day [2, 2, 2] wSize3 = some (none, w1) ∧
      w1.activeBytes = [2, 2, 2] ∧
      w1.nwrote = ((([2, 2, 2] : List Nat)).length : Int) ∧
      w1.id = wSize3.id + 1 ∧
      w1.rotated = wSize3.rotated ++
        [(goName wSize3.path wSize3.year wSize3.month wSize3.day (wSize3.id + 1),
          wSize3.activeBytes)] ∧
      w1.fOpen = true :=
  ⟨⟨rfl, rfl, rfl, rfl, by decide, by decide⟩,
    c1_rotate_before_write none 2024 3 [2, 2, 2] wSize3 7
      rfl rfl rfl rfl (by decide) (by decide)⟩

/-- C4 (amended): for every directory listing and every non-negative
retention count (including 0), the scan succeeds and returns
`maxSequenceSeen` equal to the maximum of 0 and the sequence ids of all
matching entries — entries beyond the retained subset included — so it is
an upper bound of every discoverable id; the pipeline constructor `New`
initialises the writer's sequence counter to exactly that value, and every
successful rotation increments the counter by exactly one, so every
sequence id assigned after a restart (`maxid + k`, `k ≥ 1`) is strictly
greater than every id discoverable at startup. -/
theorem c4_sequence_never_regresses :
    (∀ entries dir base (mf : Int), 0 ≤ mf →
      ∃ res, collectFiles entries dir base mf =
        some (res, (matchIds base entries).foldl max 0)) ∧
    (∀ entries (base : String), ∀ i ∈ matchIds base entries,
      i ≤ (matchIds base entries).foldl max 0) ∧
    (∀ entries (base : String), 0 ≤ (matchIds base entries).foldl max 0) ∧
    (∀ entries path dir base (limit mf : Int) w,
      New entries path dir base limit mf = some w →
      w.id = (matchIds base entries).foldl max 0) ∧
    (∀ (o : RotOut) (y m d : Int) (w : WState) w1,
      rotate o y m d w = some (none, w1) → w1.id = w.id + 1) ∧
    (∀ entries (base : String), ∀ i ∈ matchIds base entries, ∀ k : Nat,
      i < (matchIds base entries).foldl max 0 + 1 + k) := by
  have hub : ∀ entries (base : String), ∀ i ∈ matchIds base entries,
      i ≤ (matchIds base entries).foldl max 0 :=
    fun entries base i hi => mem_le_foldl_max (matchIds base entries) 0 i hi
  refine ⟨?_, hub, ?_, ?_, ?_, ?_⟩
  · intro entries dir base mf hmf
    by_cases h0 : 0 < mf
    · exact ⟨_, collectFiles_pos entries dir base mf h0⟩
    · have : mf = 0 := by omega
      subst this
      exact ⟨_, collectFiles_zero entries dir base⟩
  · intro entries base
    exact le_foldl_max (matchIds base entries) 0
  · intro entries path dir base limit mf w hw
    unfold New at hw
    cases hcf : collectFiles entries dir base mf with
    | none => rw [hcf] at hw; cases hw
    | some pr =>
      obtain ⟨res, mid⟩ := pr
      rw [hcf] at hw
      dsimp only at hw
      simp only [Option.some.injEq] at hw
      subst hw
      exact collectFiles_maxid entries dir base mf res mid hcf
  · intro o y m d w w1 h1
    unfold rotate at h1
    by_cases h0 : 0 < w.nwm
    · rw [if_pos h0] at h1
      unfold flushwm at h1
      cases ho : o.flushErr with
      | some er => rw [ho] at h1; dsimp only at h1; simp at h1
      | none =>
        rw [ho] at h1
        dsimp only at h1
        by_cases hM : 0 < w.rs.maxfiles
        · rw [if_pos hM] at h1
          cases hp : push w.rs (w.id + 1)
              (goName w.path w.year w.month w.day (w.id + 1)) with
          | none => rw [hp] at h1; dsimp only at h1; cases h1
          | some pr =>
            rw [hp] at h1
            dsimp only at h1
            unfold openFile at h1
            cases hr : o.openRes with
            | none => rw [hr] at h1; simp at h1
            | some sz =>
              rw [hr] at h1
              simp only [Option.some.injEq, Prod.mk.injEq] at h1
              obtain ⟨-, hw⟩ := h1
              subst hw
              rfl
        · rw [if_neg hM] at h1
          dsimp only at h1
          unfold openFile at h1
          cases hr : o.openRes with
          | none => rw [hr] at h1; simp at h1
          | some sz =>
            rw [hr] at h1
            simp only [Option.some.injEq, Prod.mk.injEq] at h1
            obtain ⟨-, hw⟩ := h1
            subst hw
            rfl
    · rw [if_neg h0] at h1
      dsimp only at h1
      by_cases hM : 0 < w.rs.maxfiles
      · rw [if_pos hM] at h1
        cases hp : push w.rs (w.id + 1)
            (goName w.path w.year w.month w.day (w.id + 1)) with
        | none => rw [hp] at h1; dsimp only at h1; cases h1
        | some pr =>
          rw [hp] at h1
          dsimp only at h1
          unfold openFile at h1
          cases hr : o.openRes with
          | none => rw [hr] at h1; simp at h1
          | some sz =>
            rw [hr] at h1
            simp only [Option.some.injEq, Prod.mk.injEq] at h1
            obtain ⟨-, hw⟩ := h1
            subst hw
            rfl
      · rw [if_neg hM] at h1
        dsimp only at h1
        unfold openFile at h1
        cases hr : o.openRes with
        | none => rw [hr] at h1; simp at h1
        | some sz =>
          rw [hr] at h1
          simp only [Option.some.injEq, Prod.mk.injEq] at h1
          obtain ⟨-, hw⟩ := h1
          subst hw
          rfl
  · intro entries base i hi k
    have := hub entries base i hi
    omega

/-- C4 counterexample: a directory whose only matching entry has the
(negative) sequence id -5 parsed by `strconv.Atoi`; the scan returns
`maxSequenceSeen = 0`, not the maximum matching id -5 — refuting the
claim's "equal to the maximum sequence id over all matching directory
entries" (the code computes the maximum of 0 and the ids). -/
theorem c4_counterexample :
    collectFiles [⟨"roll.log.-5", false, true⟩] "d" "roll.log" 0 = some ([], 0) ∧
    matchIds "roll.log" [⟨"roll.log.-5", false, true⟩] = [-5] ∧
    ((0 : Int) ≠ -5) := by
  refine ⟨by decide, by decide, by decide⟩

/-- C4 witness: the amended theorem applied at a concrete listing with an
unretained entry (retention 1 keeps only id 9, yet `maxid` is 9 and bounds
both ids), and a concrete successful rotation. -/
theorem c4_sequence_never_regresses_witness :
    ((0 : Int) ≤ 1) ∧
    (∃ res, collectFiles
        [⟨"roll.log.9", false, true⟩, ⟨"roll.log.4", false, true⟩] "d" "roll.log" 1 =
      some (res,
        (matchIds "roll.log"
          [⟨"roll.log.9", false, true⟩, ⟨"roll.log.4", false, true⟩]).foldl max 0)) ∧
    ((4 : Int) ∈ matchIds "roll.log"
        [⟨"roll.log.9", false, true⟩, ⟨"roll.log.4", false, true⟩] ∧
      (4 : Int) ≤ (matchIds "roll.log"
        [⟨"roll.log.9", false, true⟩, ⟨"roll.log.4", false, true⟩]).foldl max 0) ∧
    (rotate ⟨none, some 0⟩ 2024 3 9 wMerge = some (none,
        { wMerge with fOpen := true, activeBytes := [], nwrote := 0, id := 1,
                      rotated := [("roll.log.2024-03-09.1", [9])] }) →
      ({ wMerge with fOpen := true, activeBytes := [], nwrote := 0, id := 1,
                     rotated := [("roll.log.2024-03-09.1", [9])] } : WState).id =
        wMerge.id + 1) ∧
    (∀ k : Nat, (4 : Int) < (matchIds "roll.log"
        [⟨"roll.log.9", false, true⟩, ⟨"roll.log.4", false, true⟩]).foldl max 0 + 1 + k) :=
  ⟨by decide,
    c4_sequence_never_regresses.1
      [⟨"roll.log.9", false, true⟩, ⟨"roll.log.4", false, true⟩] "d" "roll.log" 1
      (by decide),
    ⟨by decide,
      c4_sequence_never_regresses.2.1
        [⟨"roll.log.9", false, true⟩, ⟨"roll.log.4", false, true⟩] "roll.log" 4
        (by decide)⟩,
    c4_sequence_never_regresses.2.2.2.2.1 ⟨none, some 0⟩ 2024 3 9 wMerge _,
    fun k => c4_sequence_never_regresses.2.2.2.2.2
      [⟨"roll.log.9", false, true⟩, ⟨"roll.log.4", false, true⟩] "roll.log" 4
      (by decide) k⟩

/-- C6 (amended): for every directory listing with `retainCount > 0`,
`collectFiles` returns the matching entries sorted by ascending sequence id
and keeps exactly the last `retainCount` of them (all of them when fewer
exist): the result has length `min retainCount (number of matches)`, is
sorted, and is a suffix of the sorted permutation of the matches.  When
`retainCount` is 0 it returns the empty record list (only `maxid` is
tracked), not all matching entries as the claim states. -/
theorem c6_collect_sorted_suffix :
    (∀ entries dir base (mf : Int), 0 < mf →
      ∃ res, collectFiles entries dir base mf =
          some (res, (matchIds base entries).foldl max 0) ∧
        res.length = min mf.toNat (matchList dir base entries).length ∧
        List.Chain' (fun a b => a.id ≤ b.id) res ∧
        res <:+ sortByID (matchList dir base entries) ∧
        (sortByID (matchList dir base entries)).Perm (matchList dir base entries)) ∧
    (∀ entries dir base, collectFiles entries dir base 0 =
        some ([], (matchIds base entries).foldl max 0)) := by
  constructor
  · intro entries dir base mf hmf
    refine ⟨_, collectFiles_pos entries dir base mf hmf, ?_, ?_, ?_, ?_⟩
    · rw [List.length_drop, sortByID_length]
      omega
    · exact chain'_drop _ (sortByID_chain' _)
    · exact List.drop_suffix _ _
    · exact sortByID_perm _
  · intro entries dir base
    exact collectFiles_zero entries dir base

/-- C6 counterexample: a listing with one matching entry and
`retainCount = 0`: the scan returns the empty record list even though a
matching entry exists — refuting "when retainCount is 0 it returns all
matching entries". -/
theorem c6_counterexample :
    collectFiles [⟨"roll.log.7", false, true⟩] "d" "roll.log" 0 = some ([], 7) ∧
    matchList "d" "roll.log" [⟨"roll.log.7", false, true⟩] = [⟨7, "d/roll.log.7"⟩] := by
  refine ⟨by decide, by decide⟩

/-- C6 witness: retention 2 over three matching files keeps the two largest
ids in ascending order. -/
theorem c6_collect_sorted_suffix_witness :
    ((0 : Int) < 2) ∧
    ∃ res, collectFiles
        [⟨"roll.log.3", false, true⟩, ⟨"roll.log.1", false, true⟩,
         ⟨"roll.log.2", false, true⟩] "d" "roll.log" 2 =
        some (res,
          (matchIds "roll.log"
            [⟨"roll.log.3", false, true⟩, ⟨"roll.log.1", false, true⟩,
             ⟨"roll.log.2", false, true⟩]).foldl max 0) ∧
      res.length = min (2 : Int).toNat
        (matchList "d" "roll.log"
          [⟨"roll.log.3", false, true⟩, ⟨"roll.log.1", false, true⟩,
           ⟨"roll.log.2", false, true⟩]).length ∧
      List.Chain' (fun a b => a.id ≤ b.id) res ∧
      res <:+ sortByID (matchList "d" "roll.log"
        [⟨"roll.log.3", false, true⟩, ⟨"roll.log.1", false, true⟩,
         ⟨"roll.log.2", false, true⟩]) ∧
      (sortByID (matchList "d" "roll.log"
        [⟨"roll.log.3", false, true⟩, ⟨"roll.log.1", false, true⟩,
         ⟨"roll.log.2", false, true⟩])).Perm
        (matchList "d" "roll.log"
          [⟨"roll.log.3", false, true⟩, ⟨"roll.log.1", false, true⟩,
           ⟨"roll.log.2", false, true⟩]) :=
  ⟨by decide,
    c6_collect_sorted_suffix.1
      [⟨"roll.log.3", false, true⟩, ⟨"roll.log.1", false, true⟩,
       ⟨"roll.log.2", false, true⟩] "d" "roll.log" 2 (by decide)⟩

/-- C10: with write merging enabled, every operation of the worker
(`write` under any I/O outcome, `flushwm`, `rotate`, the sync-sentinel
path, and enabling `WriteMerging` itself) preserves the staging invariant
`0 ≤ nwm ≤ len wmbuf`, so the `copy` into the staging buffer at offset
`nwm` never overflows it; a record larger than the staging buffer is
written directly to the file, after first flushing any staged bytes, and a
merging write never reorders bytes: the file bytes followed by the staged
bytes always equal the previous contents followed by `p`. -/
theorem c10_write_merging_invariants :
    (∀ (e : Option String) (w : WState),
      (flushwm e w).2.nwm = 0 ∧ (flushwm e w).2.wmbuf = w.wmbuf) ∧
    (∀ (o : RotOut) (y m d : Int) (w : WState), wmInv w →
      ∀ e w1, rotate o y m d w = some (e, w1) → wmInv w1) ∧
    (∀ (oF oS : Option String) (w : WState), wmInv w →
      wmInv (ioprocSentinel oF oS w)) ∧
    (∀ (ps : Nat) (w : WState), wmInv (WriteMerging ps w)) ∧
    (∀ (oO : Option Nat) (oD oZ : RotOut) (oF oW : Option String)
      (y m d : Int) (p : List Nat) (w : WState), wmInv w →
      ∀ e w1, write oO oD oZ oF oW y m d p w = some (e, w1) → wmInv w1) ∧
    (∀ (y m : Int) (p : List Nat) (w : WState),
      w.fOpen = true → w.writeMerge = true → wmInv w →
      ¬(0 < w.limit ∧ w.limit < w.nwrote + (p.length : Int)) →
      ∃ w1, write (some 0) ⟨none, some 0⟩ ⟨none, some 0⟩ none none y m w.day p w =
          some (none, w1) ∧
        w1.activeBytes ++ w1.wmbuf.take w1.nwm =
          w.activeBytes ++ w.wmbuf.take w.nwm ++ p ∧
        wmInv w1 ∧
        (w.wmbuf.length < p.length → w1.nwm = 0 ∧
          w1.activeBytes = w.activeBytes ++ w.wmbuf.take w.nwm ++ p)) := by
  refine ⟨flushwm_wm, rotate_wmInv, sentinel_wmInv, ?_, write_wmInv, ?_⟩
  · intro ps w
    unfold wmInv WriteMerging
    simp
  · intro y m p w hf hm hInv hnoz
    obtain ⟨w1, ht, heq, hinv1, hover⟩ :=
      writeTail_content p { w with nwrote := w.nwrote + (p.length : Int) } hm hInv
    refine ⟨w1, ?_, heq, hinv1, hover⟩
    unfold write
    rw [if_pos hf]
    dsimp only
    rw [if_neg (by simp)]
    dsimp only
    rw [if_neg hnoz]
    exact ht

/-- C10 witness: a merging writer with an empty 4-byte staging buffer
absorbs a 2-byte record into the buffer, keeping the invariant and the
byte order. -/
theorem c10_write_merging_invariants_witness :
    (wMerge.fOpen = true ∧ wMerge.writeMerge = true ∧ wmInv wMerge ∧
      ¬(0 < wMerge.limit ∧ wMerge.limit < wMerge.nwrote + (([5, 6] : List Nat).length : Int))) ∧
    ∃ w1, write (some 0) ⟨none, some 0⟩ ⟨none, some 0⟩ none none
        2024 3 wMerge.day [5, 6] wMerge = some (none, w1) ∧
      w1.activeBytes ++ w1.wmbuf.take w1.nwm =
        wMerge.activeBytes ++ wMerge.wmbuf.take wMerge.nwm ++ [5, 6] ∧
      wmInv w1 ∧
      (wMerge.wmbuf.length < ([5, 6] : List Nat).length → w1.nwm = 0 ∧
        w1.activeBytes = wMerge.activeBytes ++ wMerge.wmbuf.take wMerge.nwm ++ [5, 6]) :=
  ⟨⟨rfl, rfl, by unfold wmInv; decide, by decide⟩,
    c10_write_merging_invariants.2.2.2.2.2 2024 3 [5, 6] wMerge
      rfl rfl (by unfold wmInv; decide) (by decide)⟩

end LogWriter
